import Mathlib

/-!
Verification development for the ApiBankiPars ingestion pipeline:
a shallow embedding of the Fetcher (`fetch_html`), the Parser
(`parse_currency_table`, `get_link_info`) and the Reconciler
(`CurrencyRateDAO.bulk_update_currency`, `CurrencyRateDAO._find_by_range`),
with theorems settling the specification's testable properties.
-/

namespace ApiBankiPars

/-- Decidable equality for `Except`, used to evaluate embedded fallible
operations on concrete inputs. -/
instance {ε α : Type} [DecidableEq ε] [DecidableEq α] : DecidableEq (Except ε α) :=
  fun a b =>
    match a, b with
    | .ok x, .ok y => if h : x = y then .isTrue (by rw [h]) else .isFalse (by simp [h])
    | .error x, .error y => if h : x = y then .isTrue (by rw [h]) else .isFalse (by simp [h])
    | .ok _, .error _ => .isFalse (fun h => Except.noConfusion h)
    | .error _, .ok _ => .isFalse (fun h => Except.noConfusion h)

/-! ## Fetcher: `fetch_html` (app/scheduler/parser.py)

The network is abstracted as an oracle mapping the index of each attempt
(0-based: the n-th GET issued) to its outcome: a successful body, a
transient failure (`ClientError` / `asyncio.TimeoutError`), or an
unexpected exception (the final `except Exception` arm). -/

inductive FetchOutcome where
  | success (body : String)
  | transient
  | unexpected
  deriving DecidableEq, Repr

/-- Result of a `fetch_html` run: the returned value (`None` on failure),
the list of back-off sleeps performed (in time units, in order), and the
total number of GET attempts issued. -/
structure FetchResult where
  result : Option String
  sleeps : List Nat
  attempts : Nat
  deriving DecidableEq, Repr

/-- The retry loop of `fetch_html`.  `fuel = retries - attempt` counts the
remaining loop iterations (the Python loop runs `while attempt < retries`);
`made` is the number of attempts issued so far, `sleeps` the sleeps so far.
On a transient failure the code increments `attempt`, gives up when
`attempt == retries`, and otherwise sleeps `2 ** attempt` time units.
On an unexpected exception it returns `None` immediately. -/
def fetchGo (oracle : Nat → FetchOutcome) (retries : Nat) :
    Nat → Nat → List Nat → FetchResult
  | 0, made, sleeps => ⟨none, sleeps, made⟩
  | fuel + 1, made, sleeps =>
    match oracle made with
    | .success body => ⟨some body, sleeps, made + 1⟩
    | .transient =>
      if fuel = 0 then ⟨none, sleeps, made + 1⟩
      else fetchGo oracle retries fuel (made + 1) (sleeps ++ [2 ^ (retries - fuel)])
    | .unexpected => ⟨none, sleeps, made + 1⟩

/-- `fetch_html(url, session, retries)`: run the retry loop starting at
`attempt = 0` with no attempts made and no sleeps performed. -/
def fetch_html (oracle : Nat → FetchOutcome) (retries : Nat) : FetchResult :=
  fetchGo oracle retries retries 0 []

/-- An oracle on which every attempt fails transiently. -/
def allTransient : Nat → FetchOutcome := fun _ => .transient

/-! ## Reconciler: `CurrencyRateDAO.bulk_update_currency` (app/api/dao.py)

A dumped pydantic record (`record.model_dump(exclude_unset=True)`) is an
association list from field names to values; a persisted `currency_rate`
row is its `bank_en` key column plus a total assignment of the remaining
columns.  The SQLAlchemy session is a pair of the committed store state and
the pending (in-transaction) state: `session.execute` mutates the pending
state, `session.commit` publishes it, `session.rollback` discards it. -/

inductive Value where
  | str (s : String)
  | num (q : Rat)
  deriving DecidableEq, Repr

/-- `record.model_dump(exclude_unset=True)`: the set fields of one record. -/
structure RecordDict where
  entries : List (String × Value)
  deriving DecidableEq, Repr

/-- `record_dict['bank_en']` if `'bank_en' in record_dict`, else `None`. -/
def bankEnOf (r : RecordDict) : Option Value :=
  r.entries.lookup "bank_en"

/-- `update_data = {k: v for k, v in record_dict.items() if k != 'bank_en'}`. -/
def updOf (r : RecordDict) : List (String × Value) :=
  r.entries.filter (fun kv => kv.1 ≠ "bank_en")

/-- One persisted row: the `bank_en` key column and the other columns. -/
structure PRow where
  key : Value
  attrs : String → Value

/-- `.values(**update_data)`: set each listed column to its new value. -/
def setFields (upd : List (String × Value)) (a : String → Value) : String → Value :=
  upd.foldl (fun acc kv => fun k => if k = kv.1 then kv.2 else acc k) a

/-- `session.execute(update(model).where(model.bank_en == kv).values(**upd))`:
returns the new pending state and the statement's `rowcount` (the number of
rows matched by the `WHERE` clause). -/
def execUpdate (db : List PRow) (kv : Value) (upd : List (String × Value)) :
    List PRow × Nat :=
  (db.map (fun row =>
      if row.key = kv then { row with attrs := setFields upd row.attrs } else row),
   db.countP (fun row => row.key = kv))

/-- The SQLAlchemy session: committed store state and pending transaction
state. -/
structure Session where
  committed : List PRow
  pending : List PRow

/-- The `for record in records` loop of `bulk_update_currency`, threading the
pending state, the accumulated `updated_count`, and the index of the next
`execute` call.  `shouldFail idx` says whether the store raises
`SQLAlchemyError` on the `idx`-th executed update statement. -/
def bulkLoop (shouldFail : Nat → Bool) :
    List RecordDict → List PRow → Nat → Nat → Except Unit (List PRow × Nat)
  | [], db, count, _ => .ok (db, count)
  | r :: rs, db, count, idx =>
    match bankEnOf r with
    | none => bulkLoop shouldFail rs db count idx
    | some kv =>
      if updOf r = [] then bulkLoop shouldFail rs db count idx
      else if shouldFail idx then .error ()
      else
        let e := execUpdate db kv (updOf r)
        bulkLoop shouldFail rs e.1 (count + e.2) (idx + 1)

/-- `CurrencyRateDAO.bulk_update_currency(session, records)`: run the loop on
the pending state; on success `session.commit()` and return the count; on
`SQLAlchemyError`, `session.rollback()` and re-raise. -/
def bulk_update_currency (shouldFail : Nat → Bool) (records : List RecordDict)
    (s : Session) : Except Unit Nat × Session :=
  match bulkLoop shouldFail records s.pending 0 0 with
  | .ok (db, count) => (.ok count, ⟨db, db⟩)
  | .error e => (.error e, ⟨s.committed, s.committed⟩)

/-- Effect of one record of the loop on the store (no store failure):
skip on missing `bank_en`, skip on empty update set, else execute. -/
def bulkStep (db : List PRow) (r : RecordDict) : List PRow × Nat :=
  match bankEnOf r with
  | none => (db, 0)
  | some kv => if updOf r = [] then (db, 0) else execUpdate db kv (updOf r)

/-- The failure-free run of the loop: final store state and total count. -/
def bulkRunPure (records : List RecordDict) (db : List PRow) : List PRow × Nat :=
  match records with
  | [] => (db, 0)
  | r :: rs =>
    let p := bulkStep db r
    let q := bulkRunPure rs p.1
    (q.1, p.2 + q.2)

/-- Proof infrastructure: the action of one record on one row. -/
def stepRow (r : RecordDict) (row : PRow) : PRow :=
  match bankEnOf r with
  | none => row
  | some kv =>
    if updOf r = [] then row
    else if row.key = kv then { row with attrs := setFields (updOf r) row.attrs }
    else row

/-- Proof infrastructure: the action of a record list on one row. -/
def rowApply (records : List RecordDict) (row : PRow) : PRow :=
  records.foldl (fun acc r => stepRow r acc) row

/-- Proof infrastructure: the last value written to field `k` by an update
set (later entries win, as in `setFields`). -/
def writeOfUpd : List (String × Value) → String → Option Value
  | [], _ => none
  | kv :: upd, k =>
    match writeOfUpd upd k with
    | some v => some v
    | none => if k = kv.1 then some kv.2 else none

/-- Proof infrastructure: the last value written to field `k` of a row with
key `kv` by a record list. -/
def lastW : List RecordDict → Value → String → Option Value
  | [], _, _ => none
  | r :: rs, kv, k =>
    match lastW rs kv k with
    | some v => some v
    | none =>
      match bankEnOf r with
      | none => none
      | some kv2 =>
        if updOf r = [] then none
        else if kv = kv2 then writeOfUpd (updOf r) k
        else none

/-- Proof infrastructure: the count contributed by a record list given only
the multiset of row keys (which updates never change). -/
def countKeys : List RecordDict → List Value → Nat
  | [], _ => 0
  | r :: rs, keys =>
    (match bankEnOf r with
     | none => 0
     | some kv => if updOf r = [] then 0 else keys.countP (fun key => key = kv)) +
    countKeys rs keys

/-! ## Parser: `parse_currency_table` / `get_link_info` (app/scheduler/parser.py)

BeautifulSoup is abstracted at the DOM level: a page is `none` when
`soup.find('table', class_='content_table')` or its `tbody` is absent, and
otherwise the list of `<tr>` rows, each row carrying exactly the pieces the
parser reads from it. -/

/-- Digits of a decimal numeral to a natural number. -/
def digitsToNat (cs : List Char) : Nat :=
  cs.foldl (fun n c => 10 * n + (c.toNat - 48)) 0

/-- Python `s.split(sep)` for a one-character separator: splits on every
occurrence, keeping empty parts (`''.split('/') == ['']`). -/
def pySplit : List Char → Char → List (List Char)
  | [], _ => [[]]
  | c :: t, sep =>
    if c = sep then [] :: pySplit t sep
    else
      match pySplit t sep with
      | [] => [[c]]
      | p :: ps => (c :: p) :: ps

/-- ASCII whitespace, as stripped by Python `float`. -/
def isSpaceChar (c : Char) : Bool :=
  c = ' ' || c = '\t' || c = '\n' || c = '\r'

/-- Python `s.strip()` on a character list (ASCII whitespace). -/
def trimChars (cs : List Char) : List Char :=
  ((cs.dropWhile isSpaceChar).reverse.dropWhile isSpaceChar).reverse

/-- Split a character list at its first decimal point. -/
def splitDot : List Char → List Char × Option (List Char)
  | [] => ([], none)
  | c :: t =>
    if c = '.' then ([], some t)
    else
      let p := splitDot t
      (c :: p.1, p.2)

/-- Model of Python `float(s)` on decimal numerals: optional surrounding
whitespace, optional sign, digits with at most one decimal point and at
least one digit; anything else raises `ValueError` (`none`).  Exponent,
infinity and NaN forms never occur in the scraped cells and are not
modelled. -/
def pyFloat (s : String) : Option Rat :=
  let cs := trimChars s.data
  let neg : Bool := match cs with | '-' :: _ => true | _ => false
  let body : List Char :=
    match cs with
    | '-' :: t => t
    | '+' :: t => t
    | _ => cs
  let p := splitDot body
  let ip := p.1
  let fp := p.2.getD []
  if ip.all Char.isDigit && fp.all Char.isDigit && (!ip.isEmpty || !fp.isEmpty) then
    let den : Nat := Nat.pow 10 fp.length
    let numAbs : Nat := digitsToNat ip * den + digitsToNat fp
    some (Rat.divInt (if neg then -(numAbs : Int) else (numAbs : Int)) (den : Int))
  else none

/-- `.replace(',', '.')` on a cell text. -/
def commaToDot (s : String) : String :=
  String.mk (s.toList.map (fun c => if c = ',' then '.' else c))

/-- `get_link_info(link_draft)`: `link_draft` is the row's `<a>` element if
present, holding its `href` attribute if present.  Returns the absolute
link (`'https://ru.myfin.by' + link`) and the identifier
`link.split('/')[2]`; that indexing raises `IndexError` (modelled as
`Except.error`) when the split has fewer than three parts; a missing
element, a missing attribute or an empty (falsy) `href` yields
`(None, None)`. -/
def get_link_info (linkDraft : Option (Option String)) :
    Except Unit (Option String × Option String) :=
  match linkDraft with
  | none => .ok (none, none)
  | some none => .ok (none, none)
  | some (some l) =>
    if l = "" then .ok (none, none)
    else
      match (pySplit l.data '/')[2]? with
      | none => .error ()
      | some seg => .ok (some ("https://ru.myfin.by" ++ l), some (String.mk seg))

/-- `CurrencyRateSchema` (app/api/schemas.py): `bank_en`, `bank_name`,
`link` and `update_time` are required strings, the four quotes required
floats. -/
structure CurrencyRateSchema where
  bank_en : String
  bank_name : String
  link : String
  usd_buy : Rat
  usd_sell : Rat
  eur_buy : Rat
  eur_sell : Rat
  update_time : String
  deriving DecidableEq, Repr

/-- One `<tr>` of the rate table, as the parser reads it: the text of the
`td.bank_name` cell if that cell exists, the first `<a>` element (with its
optional `href`) if present, the stripped texts of the `td.USD` and
`td.EUR` cells, and the text of the `<time>` element if present. -/
structure HRow where
  bank_name : Option String
  link : Option (Option String)
  usd : List String
  eur : List String
  time : Option String
  deriving DecidableEq, Repr

/-- `float(row.find_all('td', class_=c)[i].get_text(strip=True).replace(',', '.'))`:
`none` when the cell is missing (`IndexError`) or non-numeric
(`ValueError`). -/
def quoteOf (cells : List String) (i : Nat) : Option Rat :=
  cells[i]?.bind (fun t => pyFloat (commaToDot t))

/-- Parse one row.  `Except.error` models an exception escaping the row and
killing the whole-page parse: missing `td.bank_name` cell, missing
`<time>`, `IndexError` inside `get_link_info`, or pydantic validation
failure on a `None` link or identifier.  `Except.ok none` models the
guarded quote failure (`ValueError`/`IndexError` on a quote cell): that row
alone is skipped with a warning. -/
def rowParse (row : HRow) : Except Unit (Option CurrencyRateSchema) :=
  match row.bank_name with
  | none => .error ()
  | some bname =>
    match quoteOf row.usd 0, quoteOf row.usd 1, quoteOf row.eur 0, quoteOf row.eur 1 with
    | some ub, some us, some eb, some es =>
      match row.time with
      | none => .error ()
      | some t =>
        match get_link_info row.link with
        | .error e => .error e
        | .ok li =>
          match li.1, li.2 with
          | some l, some b => .ok (some ⟨b, bname, l, ub, us, eb, es, t⟩)
          | _, _ => .error ()
    | _, _, _, _ => .ok none

/-- The row loop of `parse_currency_table`: parsed records are appended in
row order; a skipped row contributes nothing; an escaping exception aborts
the loop. -/
def parseLoop : List HRow → Except Unit (List CurrencyRateSchema)
  | [] => .ok []
  | row :: rows =>
    match rowParse row with
    | .error e => .error e
    | .ok none => parseLoop rows
    | .ok (some r) => (parseLoop rows).map (fun l => r :: l)

/-- `parse_currency_table(html)`: the whole body runs inside a `try` whose
`except` logs an error and returns `[]`, so an absent table structure
(`page = none`) or any escaping row exception yields the empty list. -/
def parse_currency_table (page : Option (List HRow)) : List CurrencyRateSchema :=
  match page with
  | none => []
  | some rows =>
    match parseLoop rows with
    | .ok l => l
    | .error _ => []

/-! ## Range query: `CurrencyRateDAO._find_by_range` (app/api/dao.py) -/

/-- `CurrencyRateDAO._find_by_range(field_name, min_value, max_value)`:
raises `ValueError` (modelled as `Except.error`) when
`min_value > max_value`, before the store is consulted; otherwise selects
the rows whose `field_name` column lies in the inclusive range. -/
def find_by_range (field : String) (minv maxv : Rat) (db : List PRow) :
    Except Unit (List PRow) :=
  if minv > maxv then .error ()
  else .ok (db.filter (fun row =>
    match row.attrs field with
    | .num x => decide (minv ≤ x) && decide (x ≤ maxv)
    | .str _ => false))

/-! ## Helper definitions and concrete fixtures -/

/-- Whether parsing a row completes without an escaping exception. -/
def rowOk (row : HRow) : Bool :=
  match rowParse row with
  | .ok _ => true
  | .error _ => false

/-- The record contributed by a row: `none` when the row is skipped or
fatal. -/
def goodRecOf (row : HRow) : Option CurrencyRateSchema :=
  match rowParse row with
  | .ok o => o
  | .error _ => none

/-- A rate-table row with the given bank name and first USD-buy cell text;
the other cells are well-formed. -/
def mkRow (name q : String) : HRow :=
  ⟨some name, some (some ("/currency/banks/" ++ name ++ "/")), [q, "72"],
   ["80", "81"], some "10:00"⟩

/-- Five rows of which the third has a non-numeric USD-buy cell. -/
def rowsW5 : List HRow :=
  [mkRow "b1" "71,15", mkRow "b2" "71,20", mkRow "b3" "abc",
   mkRow "b4" "71,30", mkRow "b5" "71,40"]

/-- A row whose detail link `href` is `/x//`, so that `split('/')[2]` is the
empty string. -/
def rowEmptySeg : HRow :=
  ⟨some "bank", some (some "/x//"), ["71", "72"], ["80", "81"], some "10:00"⟩

/-- The record produced for `rowEmptySeg`. -/
def recEmptySeg : CurrencyRateSchema :=
  (match rowParse rowEmptySeg with
   | .ok (some r) => some r
   | _ => none).getD ⟨"", "", "", 0, 0, 0, 0, ""⟩

/-- A record whose `bank_en` field is present but the empty string. -/
def recEmptyKey : RecordDict :=
  ⟨[("bank_en", Value.str ""), ("usd_buy", Value.num 92)]⟩

/-- A record whose dumped field set lacks `bank_en` entirely. -/
def recNoKey : RecordDict :=
  ⟨[("usd_buy", Value.num 91)]⟩

/-- A one-row store whose key is the empty string. -/
def dbEmptyKey : List PRow :=
  [⟨Value.str "", fun _ => Value.num 0⟩]

/-- A one-row store keyed `alfabank`. -/
def dbW3 : List PRow :=
  [⟨Value.str "alfabank", fun _ => Value.num 0⟩]

/-- A three-row store with `usd_buy` values 1, 2 and 3. -/
def dbW10 : List PRow :=
  [⟨Value.str "a", fun _ => Value.num 1⟩,
   ⟨Value.str "b", fun _ => Value.num 2⟩,
   ⟨Value.str "c", fun _ => Value.num 3⟩]

/-- A record updating the `usd_buy` column of bank `alfabank`. -/
def recW8 : RecordDict :=
  ⟨[("bank_en", Value.str "alfabank"), ("usd_buy", Value.num 92)]⟩

/-- A failure schedule on which the store raises on the very first executed
update statement. -/
def failFirst : Nat → Bool := fun _ => true

/-- A failure schedule on which the store raises on the 3rd executed update
statement (0-based index 2). -/
def failThird : Nat → Bool := fun n => n = 2

/-- A failure-free schedule. -/
def neverFail : Nat → Bool := fun _ => false

/-- Five distinct single-field update records for five distinct banks. -/
def recsW2 : List RecordDict :=
  [⟨[("bank_en", Value.str "k1"), ("usd_buy", Value.num 1)]⟩,
   ⟨[("bank_en", Value.str "k2"), ("usd_buy", Value.num 2)]⟩,
   ⟨[("bank_en", Value.str "k3"), ("usd_buy", Value.num 3)]⟩,
   ⟨[("bank_en", Value.str "k4"), ("usd_buy", Value.num 4)]⟩,
   ⟨[("bank_en", Value.str "k5"), ("usd_buy", Value.num 5)]⟩]

/-- A five-row store matching the five banks of `recsW2`. -/
def dbW2 : List PRow :=
  [⟨Value.str "k1", fun _ => Value.num 0⟩,
   ⟨Value.str "k2", fun _ => Value.num 0⟩,
   ⟨Value.str "k3", fun _ => Value.num 0⟩,
   ⟨Value.str "k4", fun _ => Value.num 0⟩,
   ⟨Value.str "k5", fun _ => Value.num 0⟩]

/-! ## Theorems -/

/-- C1 counterexample: with `maxRetries = 3` and every attempt failing
transiently, `fetch_html` makes only 3 attempts in total and performs the
back-off sleeps `[2, 4]` — there is no 4th attempt and no 8-unit sleep. -/
theorem C1_counterexample :
    fetch_html allTransient 3 = ⟨none, [2, 4], 3⟩ ∧
    (fetch_html allTransient 3).sleeps ≠ [2, 4, 8] ∧
    (fetch_html allTransient 3).attempts ≠ 4 := by
  decide

/-- C1 (amended): for `maxRetries = 3` the fetch makes at most 3 total
attempts whatever the outcomes, and on all-transient failures it sleeps 2
and 4 time units between the 1st–2nd and 2nd–3rd attempts and returns a
terminal failure (`None`) after the 3rd attempt. -/
theorem C1_fetch_backoff (oracle : Nat → FetchOutcome) :
    (fetch_html oracle 3).attempts ≤ 3 ∧
    ((∀ n, oracle n = .transient) → fetch_html oracle 3 = ⟨none, [2, 4], 3⟩) := by
  constructor
  · cases h0 : oracle 0 <;> cases h1 : oracle 1 <;> cases h2 : oracle 2 <;>
      simp [fetch_html, fetchGo, h0, h1, h2]
  · intro h
    simp [fetch_html, fetchGo, h 0, h 1, h 2]

/-- C1 witness: the amended backoff property evaluated on the all-transient
oracle. -/
theorem C1_witness :
    (fetch_html allTransient 3).attempts ≤ 3 ∧
    fetch_html allTransient 3 = ⟨none, [2, 4], 3⟩ :=
  ⟨(C1_fetch_backoff allTransient).1, (C1_fetch_backoff allTransient).2 (fun _ => rfl)⟩

/-- If some row of the table raises an unguarded exception, the row loop
aborts with that exception. -/
theorem parseLoop_error (rows : List HRow)
    (h : ∃ row ∈ rows, rowParse row = .error ()) :
    parseLoop rows = .error () := by
  induction rows with
  | nil => simp at h
  | cons row rows ih =>
    rcases h with ⟨r, hr, he⟩
    rcases List.mem_cons.mp hr with rfl | hmem
    · simp [parseLoop, he]
    · cases hp : rowParse row with
      | error e => cases e; simp [parseLoop, hp]
      | ok o =>
        have := ih ⟨r, hmem, he⟩
        cases o <;> simp [parseLoop, hp, this, Except.map]

/-- If no row of the table is fatal, the row loop returns exactly the
records of the non-skipped rows, in order. -/
theorem parseLoop_ok (rows : List HRow) (h : ∀ row ∈ rows, rowOk row = true) :
    parseLoop rows = .ok (rows.filterMap goodRecOf) := by
  induction rows with
  | nil => simp [parseLoop]
  | cons row rows ih =>
    have hhd := h row (List.mem_cons_self row rows)
    have htl := ih (fun r hr => h r (List.mem_cons_of_mem row hr))
    cases hp : rowParse row with
    | error e => simp [rowOk, hp] at hhd
    | ok o =>
      cases o with
      | none => simp [parseLoop, hp, htl, List.filterMap_cons, goodRecOf]
      | some r => simp [parseLoop, hp, htl, List.filterMap_cons, goodRecOf, Except.map]

/-- C6: the parser is total — it returns a (possibly empty) list for every
page — it returns `[]` when the expected table structure is absent, and it
degrades to `[]` when any row raises an unguarded exception. -/
theorem C6_parse_total (page : Option (List HRow)) :
    (∃ l, parse_currency_table page = l) ∧
    (page = none → parse_currency_table page = []) ∧
    (∀ rows, page = some rows → (∃ row ∈ rows, rowParse row = .error ()) →
      parse_currency_table page = []) := by
  refine ⟨⟨parse_currency_table page, rfl⟩, ?_, ?_⟩
  · rintro rfl; rfl
  · rintro rows rfl h
    simp [parse_currency_table, parseLoop_error rows h]

/-- C6 witness: the totality and empty-structure properties evaluated on
the absent-table page. -/
theorem C6_witness : parse_currency_table none = [] :=
  (C6_parse_total none).2.1 rfl

/-- C5: row-level parse failures are isolated — if every row of the table
either parses or fails only in the guarded numeric-quote extraction, the
parse yields exactly the records of the good rows, in order. -/
theorem C5_row_isolation (rows : List HRow)
    (h : ∀ row ∈ rows, rowOk row = true) :
    parse_currency_table (some rows) = rows.filterMap goodRecOf := by
  simp [parse_currency_table, parseLoop_ok rows h]

/-- C5 witness: on five rows whose third has a non-numeric quote cell, the
parse yields exactly the four records of the other rows. -/
theorem C5_witness :
    parse_currency_table (some rowsW5) = rowsW5.filterMap goodRecOf ∧
    (parse_currency_table (some rowsW5)).map CurrencyRateSchema.bank_name =
      ["b1", "b2", "b4", "b5"] :=
  ⟨C5_row_isolation rowsW5 (by decide), by decide⟩

/-- C7: for a row's detail link with a non-empty `href` whose `'/'`-split
has a third part, the derived identifier `bank_en` is that part (the second
path segment, not derived from the bank name), and the stored link is the
href prefixed with the site base URL. -/
theorem C7_link_key_derivation (href : String) (seg : List Char)
    (h1 : href ≠ "") (h2 : (pySplit href.data '/')[2]? = some seg) :
    get_link_info (some (some href)) =
      .ok (some ("https://ru.myfin.by" ++ href), some (String.mk seg)) := by
  simp [get_link_info, h1, h2]

/-- C7 witness: the link `/currency/banks/sber-bank/` yields
`bank_en = "banks"` and the base-prefixed absolute link. -/
theorem C7_witness :
    get_link_info (some (some "/currency/banks/sber-bank/")) =
      .ok (some "https://ru.myfin.by/currency/banks/sber-bank/", some "banks") :=
  C7_link_key_derivation "/currency/banks/sber-bank/" "banks".data
    (by decide) (by decide)

/-- C3: the per-record update statement of the reconciler affects 0 rows and
leaves the store unchanged when no persisted row matches the record's
`bank_en`, and it never changes the number of rows (update-only, no
insert). -/
theorem C3_no_insert (db : List PRow) (kv : Value) (upd : List (String × Value)) :
    ((∀ row ∈ db, row.key ≠ kv) → execUpdate db kv upd = (db, 0)) ∧
    (execUpdate db kv upd).1.length = db.length := by
  constructor
  · intro h
    unfold execUpdate
    refine Prod.ext ?_ ?_
    · show db.map _ = db
      have : ∀ row ∈ db,
          (if row.key = kv then { row with attrs := setFields upd row.attrs } else row) = row := by
        intro row hrow
        simp [h row hrow]
      calc db.map _ = db.map id := List.map_congr_left this
        _ = db := List.map_id db
    · show db.countP _ = 0
      refine List.countP_eq_zero.mpr ?_
      intro row hrow
      simp [h row hrow]
  · simp [execUpdate]

/-- C3 witness: updating bank `sberbank` against a store that only holds
`alfabank` affects 0 rows, changes nothing and inserts nothing. -/
theorem C3_witness :
    execUpdate dbW3 (Value.str "sberbank") [("usd_buy", Value.num 91)] = (dbW3, 0) ∧
    (execUpdate dbW3 (Value.str "sberbank") [("usd_buy", Value.num 91)]).1.length =
      dbW3.length :=
  ⟨(C3_no_insert dbW3 (Value.str "sberbank") [("usd_buy", Value.num 91)]).1 (by decide),
   (C3_no_insert dbW3 (Value.str "sberbank") [("usd_buy", Value.num 91)]).2⟩

/-- C10: the range query raises `ValueError` when `min_value > max_value`
without consulting the store (the result is the same for every store
state), and otherwise returns exactly the rows whose field value lies in
the inclusive range. -/
theorem C10_find_by_range (field : String) (minv maxv : Rat) (db : List PRow) :
    (minv > maxv → ∀ db2, find_by_range field minv maxv db2 = .error ()) ∧
    (minv ≤ maxv → ∃ l, find_by_range field minv maxv db = .ok l ∧
      ∀ row, row ∈ l ↔ row ∈ db ∧
        ∃ x, row.attrs field = .num x ∧ minv ≤ x ∧ x ≤ maxv) := by
  constructor
  · intro h db2
    simp [find_by_range, h]
  · intro h
    refine ⟨db.filter (fun row =>
      match row.attrs field with
      | .num x => decide (minv ≤ x) && decide (x ≤ maxv)
      | .str _ => false), ?_, ?_⟩
    · simp [find_by_range, not_lt.mpr h]
    intro row
    rw [List.mem_filter]
    constructor
    · rintro ⟨hmem, hp⟩
      refine ⟨hmem, ?_⟩
      cases hx : row.attrs field with
      | num x =>
        simp only [hx, Bool.and_eq_true, decide_eq_true_eq] at hp
        exact ⟨x, rfl, hp.1, hp.2⟩
      | str s => simp [hx] at hp
    · rintro ⟨hmem, x, hx, h1, h2⟩
      exact ⟨hmem, by simp [hx, h1, h2]⟩

/-- C10 witness: the range query on `usd_buy` errors for the inverted range
`[5, 3]` on any store, and for `[1, 2]` returns exactly the in-range rows,
endpoints included. -/
theorem C10_witness :
    (find_by_range "usd_buy" 5 3 dbW10 = .error ()) ∧
    (∃ l, find_by_range "usd_buy" 1 2 dbW10 = .ok l ∧
      ∀ row, row ∈ l ↔ row ∈ dbW10 ∧
        ∃ x, row.attrs "usd_buy" = .num x ∧ 1 ≤ x ∧ x ≤ 2) :=
  ⟨(C10_find_by_range "usd_buy" 5 3 dbW10).1 (by decide) dbW10,
   (C10_find_by_range "usd_buy" 1 2 dbW10).2 (by decide)⟩

/-- C4 counterexample: a record whose `bank_en` field is present but the
empty string is NOT skipped — against a store holding a row whose key is
the empty string it contributes 1 to the affected-row count, contradicting
the claim that a non-non-empty `bank_en` is skipped and contributes
nothing. -/
theorem C4_counterexample :
    (bulk_update_currency neverFail [recEmptyKey] ⟨dbEmptyKey, dbEmptyKey⟩).1 =
      .ok 1 := by
  decide

/-- C4 (amended): a record whose dumped field set lacks the `bank_en` key is
skipped with a warning, as is a record whose update field set (all fields
except `bank_en`) is empty; a skipped record contributes nothing to the
store state or the affected-row count and does not abort the unit of work.
(A record whose `bank_en` is present but empty is not skipped.) -/
theorem C4_skip_semantics (f : Nat → Bool) (r : RecordDict)
    (rs : List RecordDict) (s : Session)
    (h : bankEnOf r = none ∨ updOf r = []) :
    bulk_update_currency f (r :: rs) s = bulk_update_currency f rs s := by
  rcases h with h | h
  · simp [bulk_update_currency, bulkLoop, h]
  · cases hb : bankEnOf r <;> simp [bulk_update_currency, bulkLoop, hb, h]

/-- C4 witness: prepending a record that lacks `bank_en` leaves the outcome
of the reconciliation unchanged. -/
theorem C4_witness :
    bulk_update_currency neverFail [recNoKey] ⟨dbEmptyKey, dbEmptyKey⟩ =
      bulk_update_currency neverFail ([] : List RecordDict) ⟨dbEmptyKey, dbEmptyKey⟩ :=
  C4_skip_semantics neverFail recNoKey [] ⟨dbEmptyKey, dbEmptyKey⟩ (Or.inl (by decide))

/-- Every record of a successful row-loop result arises from some row whose
parse produced it. -/
theorem parseLoop_mem : ∀ (rows : List HRow) (l : List CurrencyRateSchema),
    parseLoop rows = .ok l → ∀ r ∈ l, ∃ row ∈ rows, rowParse row = .ok (some r) := by
  intro rows
  induction rows with
  | nil =>
    intro l hp r hr
    simp only [parseLoop, Except.ok.injEq] at hp
    subst hp
    simp at hr
  | cons row rest ih =>
    intro l hp r hr
    cases hrow : rowParse row with
    | error e =>
      simp [parseLoop, hrow] at hp
    | ok o =>
      cases o with
      | none =>
        simp only [parseLoop, hrow] at hp
        obtain ⟨row2, hm, he⟩ := ih l hp r hr
        exact ⟨row2, List.mem_cons_of_mem _ hm, he⟩
      | some r2 =>
        simp only [parseLoop, hrow] at hp
        cases hrest : parseLoop rest with
        | error e => rw [hrest] at hp; simp [Except.map] at hp
        | ok l2 =>
          rw [hrest] at hp
          simp only [Except.map, Except.ok.injEq] at hp
          subst hp
          rcases List.mem_cons.mp hr with rfl | hmem
          · exact ⟨row, List.mem_cons_self _ _, hrow⟩
          · obtain ⟨row2, hm, he⟩ := ih l2 hrest r hmem
            exact ⟨row2, List.mem_cons_of_mem _ hm, he⟩

/-- C9 counterexample: for a row whose detail link href is `/x//` (with
well-formed quote cells), the parser emits a record whose `bank_en` is the
EMPTY string, contradicting the claim that every emitted record has a
non-empty `bank_en`. -/
theorem C9_counterexample :
    (parse_currency_table (some [rowEmptySeg])).map CurrencyRateSchema.bank_en =
      [""] := by
  decide

/-- C9 (amended): every record in the parser's output arises from a row of
the page whose guarded numeric extraction succeeded — the record carries
all four quote values by construction, and any row missing a quote is
discarded inside the parser — while `bank_en` is the string derived from
the row's link, which may be empty for a crafted href. -/
theorem C9_wellformed (page : Option (List HRow)) (r : CurrencyRateSchema)
    (h : r ∈ parse_currency_table page) :
    ∃ rows row, page = some rows ∧ row ∈ rows ∧ rowParse row = .ok (some r) := by
  cases page with
  | none => simp [parse_currency_table] at h
  | some rows =>
    cases hp : parseLoop rows with
    | error e => simp [parse_currency_table, hp] at h
    | ok l =>
      simp only [parse_currency_table, hp] at h
      obtain ⟨row, hm, he⟩ := parseLoop_mem rows l hp r h
      exact ⟨rows, row, rfl, hm, he⟩

/-- C9 witness: the record emitted for `rowEmptySeg` arises from that row's
successful guarded parse. -/
theorem C9_witness :
    ∃ rows row, (some [rowEmptySeg] : Option (List HRow)) = some rows ∧
      row ∈ rows ∧ rowParse row = .ok (some recEmptySeg) :=
  C9_wellformed (some [rowEmptySeg]) recEmptySeg
    ((show parse_currency_table (some [rowEmptySeg]) = [recEmptySeg] from rfl) ▸
      List.mem_singleton.mpr rfl)

/-- `stepRow` never changes a row's key: the update field set excludes
`bank_en`. -/
theorem stepRow_key (r : RecordDict) (row : PRow) :
    (stepRow r row).key = row.key := by
  unfold stepRow
  cases bankEnOf r
  · rfl
  · dsimp only
    split
    · rfl
    · split <;> rfl

/-- `rowApply` never changes a row's key. -/
theorem rowApply_key (rs : List RecordDict) (row : PRow) :
    (rowApply rs row).key = row.key := by
  induction rs generalizing row with
  | nil => rfl
  | cons r rs ih => exact (ih (stepRow r row)).trans (stepRow_key r row)

/-- The store state after one record of the loop is the row-wise map of
`stepRow`. -/
theorem bulkStep_fst (db : List PRow) (r : RecordDict) :
    (bulkStep db r).1 = db.map (stepRow r) := by
  cases hb : bankEnOf r with
  | none =>
    have h : ∀ row ∈ db, row = stepRow r row := by
      intro row _; simp [stepRow, hb]
    simp only [bulkStep, hb]
    exact (List.map_id db).symm.trans (List.map_congr_left h)
  | some kv =>
    by_cases hup : updOf r = []
    · have h : ∀ row ∈ db, row = stepRow r row := by
        intro row _; simp [stepRow, hb, hup]
      simp only [bulkStep, hb, if_pos hup]
      exact (List.map_id db).symm.trans (List.map_congr_left h)
    · simp only [bulkStep, hb, if_neg hup, execUpdate]
      refine List.map_congr_left ?_
      intro row _
      simp [stepRow, hb, hup]

/-- One record of the loop preserves the multiset of row keys. -/
theorem bulkStep_keys (db : List PRow) (r : RecordDict) :
    (bulkStep db r).1.map PRow.key = db.map PRow.key := by
  rw [bulkStep_fst, List.map_map]
  exact List.map_congr_left (fun row _ => stepRow_key r row)

/-- The final store state of the failure-free run is the row-wise map of
`rowApply`. -/
theorem bulkRunPure_fst (rs : List RecordDict) (db : List PRow) :
    (bulkRunPure rs db).1 = db.map (rowApply rs) := by
  induction rs generalizing db with
  | nil =>
    have h : ∀ row ∈ db, row = rowApply [] row := fun row _ => rfl
    exact (List.map_id db).symm.trans (List.map_congr_left h)
  | cons r rs ih =>
    show (bulkRunPure rs (bulkStep db r).1).1 = db.map (rowApply (r :: rs))
    rw [ih, bulkStep_fst, List.map_map]
    rfl

/-- The failure-free run preserves the multiset of row keys. -/
theorem bulkRunPure_keys (rs : List RecordDict) (db : List PRow) :
    (bulkRunPure rs db).1.map PRow.key = db.map PRow.key := by
  rw [bulkRunPure_fst, List.map_map]
  exact List.map_congr_left (fun row _ => rowApply_key rs row)

/-- The affected-row count of the failure-free run depends only on the
multiset of row keys. -/
theorem bulkRunPure_snd (rs : List RecordDict) (db : List PRow) :
    (bulkRunPure rs db).2 = countKeys rs (db.map PRow.key) := by
  induction rs generalizing db with
  | nil => rfl
  | cons r rs ih =>
    show (bulkStep db r).2 + (bulkRunPure rs (bulkStep db r).1).2 = _
    rw [ih, bulkStep_keys]
    show _ = (match bankEnOf r with
      | none => 0
      | some kv => if updOf r = [] then 0
        else (db.map PRow.key).countP (fun key => key = kv)) +
      countKeys rs (db.map PRow.key)
    congr 1
    cases hb : bankEnOf r with
    | none => simp [bulkStep, hb]
    | some kv =>
      by_cases hup : updOf r = []
      · simp [bulkStep, hb, hup]
      · simp only [bulkStep, hb, if_neg hup, execUpdate, List.countP_map]
        rfl

/-- `setFields` in terms of the last write to each field. -/
theorem setFields_eq (upd : List (String × Value)) (a : String → Value)
    (k : String) : setFields upd a k = (writeOfUpd upd k).getD (a k) := by
  induction upd generalizing a with
  | nil => rfl
  | cons kv upd ih =>
    show setFields upd (fun k2 => if k2 = kv.1 then kv.2 else a k2) k = _
    rw [ih]
    cases hw : writeOfUpd upd k with
    | some v => simp [writeOfUpd, hw]
    | none =>
      by_cases hk : k = kv.1
      · subst hk
        simp [writeOfUpd, hw]
      · simp [writeOfUpd, hw, hk]

/-- `rowApply` in terms of the last write to each field of a row with the
given key. -/
theorem rowApply_attrs (rs : List RecordDict) (row : PRow) :
    rowApply rs row =
      ⟨row.key, fun k => (lastW rs row.key k).getD (row.attrs k)⟩ := by
  induction rs generalizing row with
  | nil => rfl
  | cons r rs ih =>
    show rowApply rs (stepRow r row) = _
    rw [ih (stepRow r row)]
    rw [show (stepRow r row).key = row.key from stepRow_key r row]
    congr 1
    funext k
    cases hw : lastW rs row.key k with
    | some v => simp [lastW, hw]
    | none =>
      simp only [lastW, hw, Option.getD_none]
      cases hb : bankEnOf r with
      | none => simp [stepRow, hb]
      | some kv2 =>
        by_cases hup : updOf r = []
        · simp [stepRow, hb, hup]
        · by_cases hkey : row.key = kv2
          · simp only [stepRow, hb, if_neg hup, if_pos hkey]
            rw [setFields_eq]
          · simp [stepRow, hb, hup, hkey]

/-- Applying the same record list twice to a row is the same as applying it
once: each field either keeps its original value or receives the same last
write on both passes. -/
theorem rowApply_idem (rs : List RecordDict) (row : PRow) :
    rowApply rs (rowApply rs row) = rowApply rs row := by
  rw [rowApply_attrs rs row, rowApply_attrs rs ⟨row.key, _⟩]
  congr 1
  funext k
  cases hw : lastW rs row.key k <;> simp [hw]

/-- A failure-free loop run returns the pure run's state and count. -/
theorem bulkLoop_never (rs : List RecordDict) (db : List PRow) (c i : Nat) :
    bulkLoop neverFail rs db c i =
      .ok ((bulkRunPure rs db).1, c + (bulkRunPure rs db).2) := by
  induction rs generalizing db c i with
  | nil => simp [bulkLoop, bulkRunPure]
  | cons r rs ih =>
    cases hb : bankEnOf r with
    | none =>
      simp only [bulkLoop, hb, ih]
      show _ = Except.ok ((bulkRunPure rs (bulkStep db r).1).1,
        c + ((bulkStep db r).2 + (bulkRunPure rs (bulkStep db r).1).2))
      simp [bulkStep, hb]
    | some kv =>
      by_cases hup : updOf r = []
      · simp only [bulkLoop, hb, if_pos hup, ih]
        show _ = Except.ok ((bulkRunPure rs (bulkStep db r).1).1,
          c + ((bulkStep db r).2 + (bulkRunPure rs (bulkStep db r).1).2))
        simp [bulkStep, hb, hup]
      · simp only [bulkLoop, hb, if_neg hup, neverFail, Bool.false_eq_true,
          if_false, ih]
        show _ = Except.ok ((bulkRunPure rs (bulkStep db r).1).1,
          c + ((bulkStep db r).2 + (bulkRunPure rs (bulkStep db r).1).2))
        simp only [bulkStep, hb, if_neg hup]
        rw [Nat.add_assoc]

/-- A loop run that returns `ok` behaves exactly like the pure run: every
record was processed and the count is the pure count. -/
theorem bulkLoop_ok_eq (f : Nat → Bool) (rs : List RecordDict) (db : List PRow)
    (c i : Nat) (p : List PRow × Nat) (h : bulkLoop f rs db c i = .ok p) :
    p = ((bulkRunPure rs db).1, c + (bulkRunPure rs db).2) := by
  induction rs generalizing db c i with
  | nil =>
    simp only [bulkLoop, Except.ok.injEq] at h
    simp [bulkRunPure, ← h]
  | cons r rs ih =>
    cases hb : bankEnOf r with
    | none =>
      simp only [bulkLoop, hb] at h
      rw [ih db c i h]
      show _ = ((bulkRunPure rs (bulkStep db r).1).1,
        c + ((bulkStep db r).2 + (bulkRunPure rs (bulkStep db r).1).2))
      simp [bulkStep, hb]
    | some kv =>
      by_cases hup : updOf r = []
      · simp only [bulkLoop, hb, if_pos hup] at h
        rw [ih db c i h]
        show _ = ((bulkRunPure rs (bulkStep db r).1).1,
          c + ((bulkStep db r).2 + (bulkRunPure rs (bulkStep db r).1).2))
        simp [bulkStep, hb, hup]
      · by_cases hf : f i = true
        · simp [bulkLoop, hb, if_neg hup, hf] at h
        · simp only [bulkLoop, hb, if_neg hup, hf, if_false] at h
          rw [ih (execUpdate db kv (updOf r)).1
            (c + (execUpdate db kv (updOf r)).2) (i + 1) h]
          show _ = ((bulkRunPure rs (bulkStep db r).1).1,
            c + ((bulkStep db r).2 + (bulkRunPure rs (bulkStep db r).1).2))
          simp only [bulkStep, hb, if_neg hup]
          rw [Nat.add_assoc]

/-- C2: the reconciliation unit of work is atomic — when the store raises on
any record's update, the whole unit of work is rolled back (the committed
and visible pending states equal the pre-call committed state) and the
failure is propagated to the caller; when it returns successfully, every
record was processed (result and state equal the full failure-free run) and
only then was the state committed. -/
theorem C2_atomic_reconcile (f : Nat → Bool) (records : List RecordDict)
    (s : Session) :
    (∀ e, (bulk_update_currency f records s).1 = .error e →
      (bulk_update_currency f records s).2.committed = s.committed ∧
      (bulk_update_currency f records s).2.pending = s.committed) ∧
    (∀ n, (bulk_update_currency f records s).1 = .ok n →
      n = (bulkRunPure records s.pending).2 ∧
      (bulk_update_currency f records s).2.committed =
        (bulkRunPure records s.pending).1 ∧
      (bulk_update_currency f records s).2.pending =
        (bulkRunPure records s.pending).1) := by
  cases hl : bulkLoop f records s.pending 0 0 with
  | error e =>
    cases e
    constructor
    · intro e2 _
      simp [bulk_update_currency, hl]
    · intro n hn
      simp [bulk_update_currency, hl] at hn
  | ok p =>
    have hp := bulkLoop_ok_eq f records s.pending 0 0 p hl
    constructor
    · intro e he
      simp [bulk_update_currency, hl] at he
    · intro n hn
      simp only [bulk_update_currency, hl] at hn ⊢
      rw [hp] at hn ⊢
      simp only [Except.ok.injEq] at hn
      subst hn
      exact ⟨by simp, rfl, rfl⟩

/-- C2 witness: with a store that raises on the 3rd of 5 record updates,
the call fails and none of the five updates remains visible. -/
theorem C2_witness :
    (bulk_update_currency failThird recsW2 ⟨dbW2, dbW2⟩).2.committed = dbW2 ∧
    (bulk_update_currency failThird recsW2 ⟨dbW2, dbW2⟩).2.pending = dbW2 :=
  (C2_atomic_reconcile failThird recsW2 ⟨dbW2, dbW2⟩).1 () (by decide)

/-- C8: reconciliation is idempotent — starting from any store state with no
transaction pending, running the reconciliation twice in succession yields
the same final session and the same returned affected-row count as running
it once, and no run creates or deletes rows. -/
theorem C8_idempotent (records : List RecordDict) (s : Session)
    (h : s.pending = s.committed) :
    bulk_update_currency neverFail records
        (bulk_update_currency neverFail records s).2 =
      bulk_update_currency neverFail records s ∧
    (bulk_update_currency neverFail records s).2.committed.length =
      s.committed.length := by
  have h1 : bulk_update_currency neverFail records s =
      (.ok (bulkRunPure records s.pending).2,
       ⟨(bulkRunPure records s.pending).1, (bulkRunPure records s.pending).1⟩) := by
    simp [bulk_update_currency, bulkLoop_never]
  have h2 : bulk_update_currency neverFail records
      ⟨(bulkRunPure records s.pending).1, (bulkRunPure records s.pending).1⟩ =
      (.ok (bulkRunPure records (bulkRunPure records s.pending).1).2,
       ⟨(bulkRunPure records (bulkRunPure records s.pending).1).1,
        (bulkRunPure records (bulkRunPure records s.pending).1).1⟩) := by
    simp [bulk_update_currency, bulkLoop_never]
  have hdb : (bulkRunPure records (bulkRunPure records s.pending).1).1 =
      (bulkRunPure records s.pending).1 := by
    rw [bulkRunPure_fst records (bulkRunPure records s.pending).1,
      bulkRunPure_fst records s.pending, List.map_map]
    exact List.map_congr_left (fun row _ => rowApply_idem records row)
  have hcnt : (bulkRunPure records (bulkRunPure records s.pending).1).2 =
      (bulkRunPure records s.pending).2 := by
    rw [bulkRunPure_snd records (bulkRunPure records s.pending).1,
      bulkRunPure_snd records s.pending, bulkRunPure_keys]
  constructor
  · rw [h1]
    show bulk_update_currency neverFail records ⟨_, _⟩ = _
    rw [h2, hdb, hcnt]
  · rw [h1]
    show (bulkRunPure records s.pending).1.length = s.committed.length
    rw [bulkRunPure_fst, List.length_map, h]

/-- C8 witness: the idempotence property evaluated on the five-bank store
and record set. -/
theorem C8_witness :
    bulk_update_currency neverFail recsW2
        (bulk_update_currency neverFail recsW2 ⟨dbW2, dbW2⟩).2 =
      bulk_update_currency neverFail recsW2 ⟨dbW2, dbW2⟩ ∧
    (bulk_update_currency neverFail recsW2 ⟨dbW2, dbW2⟩).2.committed.length =
      dbW2.length :=
  C8_idempotent recsW2 ⟨dbW2, dbW2⟩ rfl

end ApiBankiPars

